import Mathlib

/-!
Shallow embedding of `tabcorr/tabcorr.py` (class `TabCorr`): binning,
galaxy assignment, tabulation loops, prediction and persistence.
Machine floats are modelled by `ℚ`; numpy arrays by lists or index
functions with explicit dimensions.
-/

namespace TabCorr

/-- A numpy ndarray: its shape and its C-order flattened data
(`.ravel()` is `data`). -/
structure NDArray where
  shape : List ℕ
  data : List ℚ
deriving DecidableEq, Repr

/-- Source `a[i]` for an ndarray: indexing along the leading axis yields the
sub-array with the tail shape, whose flat data is the `i`-th block. -/
def NDArray.index0 (a : NDArray) (i : ℕ) : NDArray :=
  ⟨a.shape.tail, (a.data.drop (i * a.shape.tail.prod)).take a.shape.tail.prod⟩

/-- One row of the `gal_type` bin table (the columns `predict` reads).
`gal_type` is the string tag (`"centrals"` / `"satellites"`), `n_h` the
halo number density of the bin, `prim_haloprop` the bin-centre value of
the primary halo property and `sec` the secondary-split side. -/
structure BinRow where
  gal_type : String
  n_h : ℚ
  prim_haloprop : ℚ
  sec : ℚ
deriving DecidableEq, Repr

/-- The occupation model handed to `predict`: the two mean-occupation
evaluators, each taking `prim_haloprop` and (when the tabulation was
split by a secondary property) the secondary percentile side. -/
structure Model where
  mean_occupation_centrals : ℚ → Option ℚ → ℚ
  mean_occupation_satellites : ℚ → Option ℚ → ℚ

/-- The state of a `TabCorr` object that `predict` reads: the bin
table, the tabulation matrix (an index function `(s, i, j) ↦ value`
with recorded leading dimension `nStat`; in `cross` mode only the first
two indices are used), the recorded result shape and the `mode` and
`sec_haloprop` attributes. -/
structure TabCorrState where
  gal_type : List BinRow
  tpcf_matrix : ℕ → ℕ → ℕ → ℚ
  nStat : ℕ
  tpcf_shape : List ℕ
  mode : String
  sec_haloprop : Bool

/-- Source `mean_occupation`: rows tagged `"centrals"` are evaluated with the
central evaluator, all others with the satellite evaluator, each fed
the row's `prim_haloprop` and (only when the `sec_haloprop` attribute
is set) the row's `sec` value. -/
def meanOccupation (t : TabCorrState) (m : Model) : List ℚ :=
  t.gal_type.map (fun row =>
    if row.gal_type = "centrals" then
      m.mean_occupation_centrals row.prim_haloprop
        (if t.sec_haloprop then some row.sec else none)
    else
      m.mean_occupation_satellites row.prim_haloprop
        (if t.sec_haloprop then some row.sec else none))

/-- Source `ngal = mean_occupation * self.gal_type['n_h']`, elementwise. -/
def ngal (t : TabCorrState) (m : Model) : List ℚ :=
  List.zipWith (fun mo row => mo * row.n_h) (meanOccupation t m) t.gal_type

/-- Source `np.outer(v, w)` as an index function. -/
def npOuter (v w : List ℚ) : ℕ → ℕ → ℚ :=
  fun i j => v.getD i 0 * w.getD j 0

/-- The auto-mode correlation prediction, mirroring
`np.sum(self.tpcf_matrix * np.outer(ngal, ngal), axis=(1, 2)) /
np.sum(ngal)**2`, reshaped to `tpcf_shape`. -/
def predictAutoXi (t : TabCorrState) (m : Model) : NDArray :=
  let ng := ngal t m
  let n := t.gal_type.length
  ⟨t.tpcf_shape,
   (List.range t.nStat).map (fun s =>
     (((List.range n).map (fun i =>
        (((List.range n).map (fun j =>
           t.tpcf_matrix s i j * npOuter ng ng i j)).sum))).sum) /
     ng.sum ^ 2)⟩

/-- The cross-mode correlation prediction, mirroring
`np.sum(self.tpcf_matrix * ngal, axis=1) / np.sum(ngal)`. -/
def predictCrossXi (t : TabCorrState) (m : Model) : NDArray :=
  let ng := ngal t m
  let n := t.gal_type.length
  ⟨t.tpcf_shape,
   (List.range t.nStat).map (fun s =>
     (((List.range n).map (fun i =>
        t.tpcf_matrix s i 0 * ng.getD i 0)).sum) / ng.sum)⟩

/-- Source `TabCorr.predict`: the pair `(ngal, xi)`, with `xi` dispatched on
the `mode` attribute. -/
def predict (t : TabCorrState) (m : Model) : List ℚ × NDArray :=
  (ngal t m,
   if t.mode = "auto" then predictAutoXi t m else predictCrossXi t m)

/-- The per-bin galaxy density as the spec words it: the mean
occupation of bin `i` times that bin's `n_h` (out-of-range indices give
`0`). -/
def specDensity (t : TabCorrState) (m : Model) (i : ℕ) : ℚ :=
  (meanOccupation t m).getD i 0 * (t.gal_type.getD i ⟨"", 0, 0, 0⟩).n_h

/-- C1's formula, written from the spec's words: the matrix times the
outer product of the density vector, summed over both bin dimensions,
divided by the square of the summed density vector, reshaped. -/
def specAutoPrediction (t : TabCorrState) (m : Model) : NDArray :=
  let n := t.gal_type.length
  ⟨t.tpcf_shape,
   (List.range t.nStat).map (fun s =>
     (∑ i ∈ Finset.range n, ∑ j ∈ Finset.range n,
        t.tpcf_matrix s i j * (specDensity t m i * specDensity t m j)) /
     (∑ i ∈ Finset.range n, specDensity t m i) ^ 2)⟩

lemma sum_map_range (f : ℕ → ℚ) (n : ℕ) :
    ((List.range n).map f).sum = ∑ i ∈ Finset.range n, f i := by
  induction n with
  | zero => simp
  | succ k ih => simp [List.range_succ, Finset.sum_range_succ, ih]

lemma ngal_eq_map (t : TabCorrState) (m : Model) :
    ngal t m = t.gal_type.map (fun row =>
      (if row.gal_type = "centrals" then
        m.mean_occupation_centrals row.prim_haloprop
          (if t.sec_haloprop then some row.sec else none)
      else
        m.mean_occupation_satellites row.prim_haloprop
          (if t.sec_haloprop then some row.sec else none)) * row.n_h) := by
  unfold ngal meanOccupation
  rw [List.zipWith_map_left, List.zipWith_same]

lemma ngal_getD (t : TabCorrState) (m : Model) (i : ℕ) :
    (ngal t m).getD i 0 = specDensity t m i := by
  rw [ngal_eq_map]
  unfold specDensity meanOccupation
  rcases h : t.gal_type[i]? with _ | row
  · simp [List.getD_eq_getElem?_getD, h]
  · simp [List.getD_eq_getElem?_getD, h]

lemma ngal_sum_aux (l : List ℚ) :
    l.sum = ∑ i ∈ Finset.range l.length, l.getD i 0 := by
  induction l with
  | nil => simp
  | cons a as ih =>
      rw [List.sum_cons, List.length_cons, Finset.sum_range_succ']
      simp [ih, add_comm]

lemma ngal_sum (t : TabCorrState) (m : Model) :
    (ngal t m).sum =
      ∑ i ∈ Finset.range t.gal_type.length, specDensity t m i := by
  have hlen : (ngal t m).length = t.gal_type.length := by
    rw [ngal_eq_map, List.length_map]
  rw [ngal_sum_aux, hlen]
  exact Finset.sum_congr rfl (fun i _ => ngal_getD t m i)

/-- C1: in auto mode, `predict` returns the correlation statistic given
by the matrix multiplied elementwise by the outer product of the
per-bin galaxy-density vector (mean occupation times `n_h`) across the
two bin dimensions, summed over both bin dimensions, divided by the
square of the summed density vector, and reshaped to the recorded
result shape. -/
theorem predict_auto_eq_spec (t : TabCorrState) (m : Model)
    (h : t.mode = "auto") :
    (predict t m).2 = specAutoPrediction t m := by
  unfold predict predictAutoXi specAutoPrediction
  rw [if_pos h]
  refine congrArg (NDArray.mk t.tpcf_shape) ?_
  refine List.map_congr_left (fun s _ => ?_)
  simp only [sum_map_range, npOuter, ngal_getD, ngal_sum]

/-- Closed instance of `predict_auto_eq_spec` at a concrete two-bin
state and model. -/
theorem predict_auto_eq_spec_witness :
    (predict
      ⟨[⟨"centrals", 1, 2, 0⟩, ⟨"satellites", 3, 4, 1⟩],
       fun s i j => (s : ℚ) + i + j, 2, [2], "auto", false⟩
      ⟨fun p _ => p, fun p _ => p + 1⟩).2 =
    specAutoPrediction
      ⟨[⟨"centrals", 1, 2, 0⟩, ⟨"satellites", 3, 4, 1⟩],
       fun s i j => (s : ℚ) + i + j, 2, [2], "auto", false⟩
      ⟨fun p _ => p, fun p _ => p + 1⟩ :=
  predict_auto_eq_spec _ _ rfl

/-- The correlation-function callable handed to `tabulate`: its
`__name__`, its auto-mode calling pattern
`tpcf(sample1, sample2=…, do_auto=…, do_cross=…)` and its cross-mode
calling pattern `tpcf(sample1)` (positional/keyword extras are folded
into the functions). `P` is the type of one galaxy position. -/
structure TpcfFun (P : Type) where
  name : String
  callAuto : List P → Option (List P) → Bool → Bool → NDArray
  callPlain : List P → NDArray

/-- The lazily created `tpcf_matrix` of auto mode: `none` while the
local variable is still unbound, otherwise the matrix as an index
function `(s, i, k) ↦ value` together with the recorded `tpcf_shape`
and the leading dimension `len(xi.ravel())`. -/
structure AutoMat where
  mat : ℕ → ℕ → ℕ → ℚ
  shape : List ℕ
  dim : ℕ

/-- Source `tpcf_matrix[:, i, k] = xi.ravel(); tpcf_matrix[:, k, i] = xi.ravel()`. -/
def writePair (mat : ℕ → ℕ → ℕ → ℚ) (i k : ℕ) (xs : List ℚ) :
    ℕ → ℕ → ℕ → ℚ :=
  fun s a b =>
    if (a = i ∧ b = k) ∨ (a = k ∧ b = i) then xs.getD s 0 else mat s a b

/-- The auto-mode invocation for the pair `(i, k)`:
`tpcf(pos[i], sample2=pos[k] if k != i else None, do_auto=(i == k),
do_cross=(not i == k))`. -/
def autoCall {P : Type} (f : TpcfFun P) (pos : List (List P)) (i k : ℕ) :
    NDArray :=
  f.callAuto (pos.getD i []) (if k ≠ i then some (pos.getD k []) else none)
    (i == k) (!(i == k))

/-- The body of the inner auto-mode loop for the pair `(i, k)`: when
`len(pos[i]) * len(pos[k]) > 0` the callable is invoked, the matrix is
created on first use, the result is stored at `(i, k)` and `(k, i)` and
the invocation is logged; otherwise the pair is skipped. -/
def autoStep {P : Type} (f : TpcfFun P) (pos : List (List P)) (i k : ℕ)
    (st : Option AutoMat × List (ℕ × ℕ)) : Option AutoMat × List (ℕ × ℕ) :=
  if 0 < (pos.getD i []).length * (pos.getD k []).length then
    let xi := autoCall f pos i k
    let m0 : AutoMat := match st.1 with
      | none => ⟨fun _ _ _ => 0, xi.shape, xi.data.length⟩
      | some m => m
    (some { m0 with mat := writePair m0.mat i k xi.data }, st.2 ++ [(i, k)])
  else st

/-- The auto-mode double loop: `for i in range(n): for k in range(i, n)`. -/
def autoLoop {P : Type} (f : TpcfFun P) (pos : List (List P)) (n : ℕ) :
    Option AutoMat × List (ℕ × ℕ) :=
  (List.range n).foldl (fun st i =>
    (List.range' i (n - i)).foldl (fun st k => autoStep f pos i k st) st)
    (none, [])

/-- Reading a cell of the (possibly still unbound) auto-mode matrix;
an unbound matrix reads as the zeros it would be initialised with. -/
def matrixEntry (st : Option AutoMat) (s i k : ℕ) : ℚ :=
  match st with
  | none => 0
  | some m => m.mat s i k

/-- The lazily created `tpcf_matrix` of cross mode: an index function
`(s, i) ↦ value` with the recorded shape and leading dimension. -/
structure CrossMat where
  mat : ℕ → ℕ → ℚ
  shape : List ℕ
  dim : ℕ

/-- The body of the cross-mode loop for bin `i`: when `len(pos[i]) > 0`
the callable is invoked as `tpcf(pos[i])`, the second component is
selected when `tpcf.__name__ == 'delta_sigma'`, the matrix is created
on first use and the result is stored at column `i`. -/
def crossStep {P : Type} (f : TpcfFun P) (pos : List (List P)) (i : ℕ)
    (st : Option CrossMat) : Option CrossMat :=
  if 0 < (pos.getD i []).length then
    let xi0 := f.callPlain (pos.getD i [])
    let xi := if f.name = "delta_sigma" then xi0.index0 1 else xi0
    let m0 : CrossMat := match st with
      | none => ⟨fun _ _ => 0, xi.shape, xi.data.length⟩
      | some m => m
    some { m0 with
      mat := fun s a => if a = i then xi.data.getD s 0 else m0.mat s a }
  else st

/-- The cross-mode loop: `for i in range(n)`. -/
def crossLoop {P : Type} (f : TpcfFun P) (pos : List (List P)) (n : ℕ) :
    Option CrossMat :=
  (List.range n).foldl (fun st i => crossStep f pos i st) none

/-- Reading a cell of the (possibly still unbound) cross-mode matrix. -/
def crossEntry (st : Option CrossMat) (s i : ℕ) : ℚ :=
  match st with
  | none => 0
  | some m => m.mat s i

/-- The recorded `tpcf_shape` of the cross-mode run, when the matrix
was created. -/
def crossShape (st : Option CrossMat) : Option (List ℕ) :=
  match st with
  | none => none
  | some m => some m.shape

lemma foldl_induction_mem {α β : Type*} (P : α → Prop) (f : α → β → α) :
    ∀ (l : List β) (st : α), P st →
      (∀ st b, b ∈ l → P st → P (f st b)) → P (l.foldl f st) := by
  intro l
  induction l with
  | nil => intro st h _; exact h
  | cons b bs ih =>
      intro st h hf
      exact ih _ (hf st b (List.mem_cons_self b bs) h)
        (fun st' b' hb' => hf st' b' (List.mem_cons_of_mem _ hb'))

lemma autoStep_symm {P : Type} (f : TpcfFun P) (pos : List (List P))
    (i k : ℕ) (st : Option AutoMat × List (ℕ × ℕ))
    (h : ∀ s a b, matrixEntry st.1 s a b = matrixEntry st.1 s b a) :
    ∀ s a b, matrixEntry (autoStep f pos i k st).1 s a b
      = matrixEntry (autoStep f pos i k st).1 s b a := by
  intro s a b
  obtain ⟨m?, log⟩ := st
  by_cases hc : 0 < (pos.getD i []).length * (pos.getD k []).length
  · cases m? with
    | none =>
        simp only [autoStep, if_pos hc, matrixEntry, writePair]
        by_cases h1 : (a = i ∧ b = k) ∨ (a = k ∧ b = i)
        · rw [if_pos h1, if_pos (by tauto)]
        · rw [if_neg h1, if_neg (by tauto)]
    | some m =>
        simp only [autoStep, if_pos hc, matrixEntry, writePair]
        by_cases h1 : (a = i ∧ b = k) ∨ (a = k ∧ b = i)
        · rw [if_pos h1, if_pos (by tauto)]
        · rw [if_neg h1, if_neg (by tauto)]
          exact h s a b
  · simp only [autoStep, if_neg hc]
    exact h s a b

/-- C2: after the auto-mode tabulation loop, the matrix is exactly
symmetric under swapping the two bin indices, for every statistic
element `s` and every bin pair. -/
theorem tabulate_auto_matrix_symmetric {P : Type} (f : TpcfFun P)
    (pos : List (List P)) (n s i j : ℕ) :
    matrixEntry (autoLoop f pos n).1 s i j
      = matrixEntry (autoLoop f pos n).1 s j i := by
  unfold autoLoop
  exact foldl_induction_mem
    (fun (st : Option AutoMat × List (ℕ × ℕ)) =>
      ∀ s a b, matrixEntry st.1 s a b = matrixEntry st.1 s b a)
    (fun st i =>
      (List.range' i (n - i)).foldl (fun st k => autoStep f pos i k st) st)
    (List.range n) (none, []) (fun _ _ _ => rfl)
    (fun st i' _ hst => foldl_induction_mem _ _ _ _ hst
      (fun st' k' _ h' => autoStep_symm f pos i' k' st' h'))
    s i j

lemma tabulate_pair_cond_iff {P : Type} (xs ys : List P) :
    0 < xs.length * ys.length ↔ (xs ≠ [] ∧ ys ≠ []) := by
  rw [Nat.pos_iff_ne_zero, Nat.mul_ne_zero_iff]
  simp [List.length_eq_zero]

/-- The invocations the inner auto loop at row `i` performs over a list
of candidate columns. -/
def callsFor {P : Type} (pos : List (List P)) (i : ℕ) (l : List ℕ) :
    List (ℕ × ℕ) :=
  l.flatMap (fun k =>
    if 0 < (pos.getD i []).length * (pos.getD k []).length
    then [(i, k)] else [])

lemma autoStep_snd {P : Type} (f : TpcfFun P) (pos : List (List P))
    (i k : ℕ) (st : Option AutoMat × List (ℕ × ℕ)) :
    (autoStep f pos i k st).2 = st.2 ++
      (if 0 < (pos.getD i []).length * (pos.getD k []).length
       then [(i, k)] else []) := by
  obtain ⟨m?, log⟩ := st
  by_cases hc : 0 < (pos.getD i []).length * (pos.getD k []).length
  · rw [if_pos hc]
    simp only [autoStep, if_pos hc]
  · rw [if_neg hc]
    simp only [autoStep, if_neg hc, List.append_nil]

lemma autoLoop_inner_snd {P : Type} (f : TpcfFun P) (pos : List (List P))
    (i : ℕ) :
    ∀ (l : List ℕ) (st : Option AutoMat × List (ℕ × ℕ)),
      ((l.foldl (fun st k => autoStep f pos i k st) st)).2
        = st.2 ++ callsFor pos i l := by
  intro l
  induction l with
  | nil => intro st; simp [callsFor]
  | cons k ks ih =>
      intro st
      rw [List.foldl_cons, ih, autoStep_snd]
      unfold callsFor
      rw [List.flatMap_cons, ← List.append_assoc]

lemma autoLoop_snd_aux {P : Type} (f : TpcfFun P) (pos : List (List P))
    (n : ℕ) :
    ∀ (l : List ℕ) (st : Option AutoMat × List (ℕ × ℕ)),
      ((l.foldl (fun st i =>
          (List.range' i (n - i)).foldl
            (fun st k => autoStep f pos i k st) st) st)).2
        = st.2 ++ l.flatMap (fun i => callsFor pos i (List.range' i (n - i))) := by
  intro l
  induction l with
  | nil => intro st; simp
  | cons i is ih =>
      intro st
      rw [List.foldl_cons, ih, autoLoop_inner_snd]
      rw [List.flatMap_cons, ← List.append_assoc]

lemma autoLoop_snd {P : Type} (f : TpcfFun P) (pos : List (List P)) (n : ℕ) :
    (autoLoop f pos n).2
      = (List.range n).flatMap
          (fun i => callsFor pos i (List.range' i (n - i))) := by
  unfold autoLoop
  rw [autoLoop_snd_aux]
  rfl

lemma autoStep_zero {P : Type} (f : TpcfFun P) (pos : List (List P))
    (i k : ℕ) (st : Option AutoMat × List (ℕ × ℕ))
    (h : ∀ s a b, (pos.getD a [] = [] ∨ pos.getD b [] = []) →
      matrixEntry st.1 s a b = 0) :
    ∀ s a b, (pos.getD a [] = [] ∨ pos.getD b [] = []) →
      matrixEntry (autoStep f pos i k st).1 s a b = 0 := by
  intro s a b hab
  obtain ⟨m?, log⟩ := st
  by_cases hc : 0 < (pos.getD i []).length * (pos.getD k []).length
  · have hik := (tabulate_pair_cond_iff _ _).mp hc
    have hnot : ¬ ((a = i ∧ b = k) ∨ (a = k ∧ b = i)) := by
      rintro (⟨rfl, rfl⟩ | ⟨rfl, rfl⟩) <;> tauto
    cases m? with
    | none =>
        simp only [autoStep, if_pos hc, matrixEntry, writePair]
        rw [if_neg hnot]
    | some m =>
        simp only [autoStep, if_pos hc, matrixEntry, writePair]
        rw [if_neg hnot]
        exact h s a b hab
  · simp only [autoStep, if_neg hc]
    exact h s a b hab

/-- C4: in auto mode, for a bin pair `(i, k)` with `i ≤ k`, the
callable is invoked exactly when both position subsets are non-empty,
and when either subset is empty the corresponding matrix cell remains
zero. -/
theorem tabulate_auto_skip_empty {P : Type} (f : TpcfFun P)
    (pos : List (List P)) (n s i k : ℕ)
    (hi : i < n) (hik : i ≤ k) (hk : k < n) :
    ((i, k) ∈ (autoLoop f pos n).2 ↔
      (pos.getD i [] ≠ [] ∧ pos.getD k [] ≠ []))
    ∧ ((pos.getD i [] = [] ∨ pos.getD k [] = []) →
        matrixEntry (autoLoop f pos n).1 s i k = 0) := by
  constructor
  · rw [autoLoop_snd, List.mem_flatMap]
    constructor
    · rintro ⟨i', hi', hmem⟩
      unfold callsFor at hmem
      rw [List.mem_flatMap] at hmem
      obtain ⟨k', _, hin⟩ := hmem
      by_cases hc : 0 < (pos.getD i' []).length * (pos.getD k' []).length
      · rw [if_pos hc] at hin
        rw [List.mem_singleton] at hin
        obtain ⟨rfl, rfl⟩ : i = i' ∧ k = k' := Prod.mk.inj_iff.mp hin
        exact (tabulate_pair_cond_iff _ _).mp hc
      · rw [if_neg hc] at hin
        exact absurd hin (List.not_mem_nil _)
    · intro hne
      refine ⟨i, List.mem_range.mpr hi, ?_⟩
      unfold callsFor
      rw [List.mem_flatMap]
      refine ⟨k, ?_, ?_⟩
      · rw [List.mem_range'_1]
        exact ⟨hik, by omega⟩
      · rw [if_pos ((tabulate_pair_cond_iff _ _).mpr hne)]
        exact List.mem_singleton.mpr rfl
  · intro hab
    unfold autoLoop
    exact foldl_induction_mem
      (fun (st : Option AutoMat × List (ℕ × ℕ)) =>
        ∀ s a b, (pos.getD a [] = [] ∨ pos.getD b [] = []) →
          matrixEntry st.1 s a b = 0)
      (fun st i =>
        (List.range' i (n - i)).foldl (fun st k => autoStep f pos i k st) st)
      (List.range n) (none, []) (fun _ _ _ _ => rfl)
      (fun st i' _ hst => foldl_induction_mem _ _ _ _ hst
        (fun st' k' _ h' => autoStep_zero f pos i' k' st' h'))
      s i k hab

/-- Closed instance of `tabulate_auto_skip_empty`: two bins, the first
subset empty, the second populated. -/
theorem tabulate_auto_skip_empty_witness :
    (((0, 1) ∈ (autoLoop (P := ℕ)
        ⟨"xi", fun _ _ _ _ => ⟨[1], [5]⟩, fun _ => ⟨[1], [5]⟩⟩
        [[], [7]] 2).2 ↔
      (([[], [7]] : List (List ℕ)).getD 0 [] ≠ [] ∧
        ([[], [7]] : List (List ℕ)).getD 1 [] ≠ [])))
    ∧ ((([[], [7]] : List (List ℕ)).getD 0 [] = [] ∨
        ([[], [7]] : List (List ℕ)).getD 1 [] = []) →
      matrixEntry (autoLoop (P := ℕ)
        ⟨"xi", fun _ _ _ _ => ⟨[1], [5]⟩, fun _ => ⟨[1], [5]⟩⟩
        [[], [7]] 2).1 0 0 1 = 0) :=
  tabulate_auto_skip_empty
    ⟨"xi", fun _ _ _ _ => ⟨[1], [5]⟩, fun _ => ⟨[1], [5]⟩⟩
    [[], [7]] 2 0 0 1 (by decide) (by decide) (by decide)

/-- The array the cross-mode loop stores for bin `i`: the second
component when the callable is named `delta_sigma`, the full result
otherwise. -/
def crossSelected {P : Type} (f : TpcfFun P) (pos : List (List P)) (i : ℕ) :
    NDArray :=
  if f.name = "delta_sigma" then (f.callPlain (pos.getD i [])).index0 1
  else f.callPlain (pos.getD i [])

lemma crossStep_self {P : Type} (f : TpcfFun P) (pos : List (List P))
    (i s : ℕ) (st : Option CrossMat) (h : 0 < (pos.getD i []).length) :
    crossEntry (crossStep f pos i st) s i
      = (crossSelected f pos i).data.getD s 0 := by
  cases st <;>
    simp only [crossStep, if_pos h, crossEntry, crossSelected, if_true]

lemma crossStep_other {P : Type} (f : TpcfFun P) (pos : List (List P))
    (i j s : ℕ) (hij : j ≠ i) (st : Option CrossMat) :
    crossEntry (crossStep f pos i st) s j = crossEntry st s j := by
  by_cases h : 0 < (pos.getD i []).length
  · cases st <;>
      · simp only [crossStep, if_pos h, crossEntry]
        rw [if_neg hij]
  · simp only [crossStep, if_neg h]

lemma crossLoop_fold_not_mem {P : Type} (f : TpcfFun P)
    (pos : List (List P)) (i s : ℕ) :
    ∀ (l : List ℕ) (st : Option CrossMat), i ∉ l →
      crossEntry (l.foldl (fun st j => crossStep f pos j st) st) s i
        = crossEntry st s i := by
  intro l
  induction l with
  | nil => intro st _; rfl
  | cons j t ih =>
      intro st hnot
      rw [List.foldl_cons, ih _ (fun h => hnot (List.mem_cons_of_mem _ h)),
        crossStep_other f pos j i s (fun h => hnot (h ▸ List.mem_cons_self j t))]

lemma crossLoop_fold_mem {P : Type} (f : TpcfFun P)
    (pos : List (List P)) (i s : ℕ) (h : 0 < (pos.getD i []).length) :
    ∀ (l : List ℕ) (st : Option CrossMat), i ∈ l →
      crossEntry (l.foldl (fun st j => crossStep f pos j st) st) s i
        = (crossSelected f pos i).data.getD s 0 := by
  intro l
  induction l with
  | nil => intro st hmem; exact absurd hmem (List.not_mem_nil i)
  | cons j t ih =>
      intro st hmem
      by_cases hit : i ∈ t
      · rw [List.foldl_cons]
        exact ih _ hit
      · have hji : j = i := by
          rcases List.mem_cons.mp hmem with h' | h'
          · exact h'.symm
          · exact absurd h' hit
        subst hji
        rw [List.foldl_cons, crossLoop_fold_not_mem f pos j s t _ hit,
          crossStep_self f pos j s st h]

lemma crossStep_shape {P : Type} (f : TpcfFun P) (pos : List (List P))
    (n i : ℕ) (hi : i < n) (st : Option CrossMat)
    (h : ∀ sh, crossShape st = some sh →
      ∃ j, j < n ∧ pos.getD j [] ≠ [] ∧ sh = (crossSelected f pos j).shape) :
    ∀ sh, crossShape (crossStep f pos i st) = some sh →
      ∃ j, j < n ∧ pos.getD j [] ≠ [] ∧ sh = (crossSelected f pos j).shape := by
  intro sh hsh
  by_cases hc : 0 < (pos.getD i []).length
  · cases st with
    | none =>
        simp only [crossStep, if_pos hc, crossShape] at hsh
        refine ⟨i, hi, List.length_pos.mp hc, ?_⟩
        rw [← Option.some.inj hsh]
        simp only [crossSelected]
    | some m =>
        simp only [crossStep, if_pos hc, crossShape] at hsh
        exact h sh hsh
  · simp only [crossStep, if_neg hc] at hsh
    exact h sh hsh

/-- C9: in cross mode, a callable named `delta_sigma` has only the
second component of its return value flattened and stored (and its
shape recorded), any other name has the full return value stored, and
the auto-mode loop is entirely independent of the callable's name. -/
theorem cross_delta_sigma_special_case {P : Type} (f : TpcfFun P)
    (pos : List (List P)) (n s i : ℕ) (name' : String)
    (hi : i < n) (hne : pos.getD i [] ≠ []) :
    (f.name = "delta_sigma" →
      crossEntry (crossLoop f pos n) s i
        = ((f.callPlain (pos.getD i [])).index0 1).data.getD s 0)
    ∧ (f.name ≠ "delta_sigma" →
      crossEntry (crossLoop f pos n) s i
        = (f.callPlain (pos.getD i [])).data.getD s 0)
    ∧ (∀ sh, crossShape (crossLoop f pos n) = some sh →
        ∃ j, j < n ∧ pos.getD j [] ≠ [] ∧
          sh = (crossSelected f pos j).shape)
    ∧ autoLoop { f with name := name' } pos n = autoLoop f pos n := by
  have hlen : 0 < (pos.getD i []).length := List.length_pos.mpr hne
  have hmem : i ∈ List.range n := List.mem_range.mpr hi
  have hsel := crossLoop_fold_mem f pos i s hlen (List.range n) none hmem
  refine ⟨?_, ?_, ?_, rfl⟩
  · intro hname
    rw [crossLoop, hsel, crossSelected, if_pos hname]
  · intro hname
    rw [crossLoop, hsel, crossSelected, if_neg hname]
  · unfold crossLoop
    exact foldl_induction_mem
      (fun (st : Option CrossMat) => ∀ sh, crossShape st = some sh →
        ∃ j, j < n ∧ pos.getD j [] ≠ [] ∧ sh = (crossSelected f pos j).shape)
      (fun st i => crossStep f pos i st) (List.range n) none
      (fun sh hsh => absurd hsh (Option.noConfusion))
      (fun st b hb h => crossStep_shape f pos n b (List.mem_range.mp hb) st h)

/-- Closed instance of `cross_delta_sigma_special_case` at a one-bin
configuration whose callable is named `delta_sigma`. -/
theorem cross_delta_sigma_special_case_witness :
    ((TpcfFun.name (P := ℕ) ⟨"delta_sigma", fun _ _ _ _ => ⟨[2, 2], [1, 2, 3, 4]⟩,
        fun _ => ⟨[2, 2], [1, 2, 3, 4]⟩⟩) = "delta_sigma" →
      crossEntry (crossLoop (P := ℕ)
          ⟨"delta_sigma", fun _ _ _ _ => ⟨[2, 2], [1, 2, 3, 4]⟩,
            fun _ => ⟨[2, 2], [1, 2, 3, 4]⟩⟩ [[3]] 1) 0 0
        = ((TpcfFun.callPlain (P := ℕ)
            ⟨"delta_sigma", fun _ _ _ _ => ⟨[2, 2], [1, 2, 3, 4]⟩,
              fun _ => ⟨[2, 2], [1, 2, 3, 4]⟩⟩
            (([[3]] : List (List ℕ)).getD 0 [])).index0 1).data.getD 0 0)
    ∧ ((TpcfFun.name (P := ℕ) ⟨"delta_sigma", fun _ _ _ _ => ⟨[2, 2], [1, 2, 3, 4]⟩,
        fun _ => ⟨[2, 2], [1, 2, 3, 4]⟩⟩) ≠ "delta_sigma" →
      crossEntry (crossLoop (P := ℕ)
          ⟨"delta_sigma", fun _ _ _ _ => ⟨[2, 2], [1, 2, 3, 4]⟩,
            fun _ => ⟨[2, 2], [1, 2, 3, 4]⟩⟩ [[3]] 1) 0 0
        = ((TpcfFun.callPlain (P := ℕ)
            ⟨"delta_sigma", fun _ _ _ _ => ⟨[2, 2], [1, 2, 3, 4]⟩,
              fun _ => ⟨[2, 2], [1, 2, 3, 4]⟩⟩
            (([[3]] : List (List ℕ)).getD 0 [])).data.getD 0 0))
    ∧ (∀ sh, crossShape (crossLoop (P := ℕ)
          ⟨"delta_sigma", fun _ _ _ _ => ⟨[2, 2], [1, 2, 3, 4]⟩,
            fun _ => ⟨[2, 2], [1, 2, 3, 4]⟩⟩ [[3]] 1) = some sh →
        ∃ j, j < 1 ∧ ([[3]] : List (List ℕ)).getD j [] ≠ [] ∧
          sh = (crossSelected (P := ℕ)
            ⟨"delta_sigma", fun _ _ _ _ => ⟨[2, 2], [1, 2, 3, 4]⟩,
              fun _ => ⟨[2, 2], [1, 2, 3, 4]⟩⟩ [[3]] j).shape)
    ∧ autoLoop (P := ℕ)
        { (⟨"delta_sigma", fun _ _ _ _ => ⟨[2, 2], [1, 2, 3, 4]⟩,
            fun _ => ⟨[2, 2], [1, 2, 3, 4]⟩⟩ : TpcfFun ℕ) with name := "w_p" }
        [[3]] 1
      = autoLoop (P := ℕ)
        ⟨"delta_sigma", fun _ _ _ _ => ⟨[2, 2], [1, 2, 3, 4]⟩,
          fun _ => ⟨[2, 2], [1, 2, 3, 4]⟩⟩ [[3]] 1 :=
  cross_delta_sigma_special_case
    ⟨"delta_sigma", fun _ _ _ _ => ⟨[2, 2], [1, 2, 3, 4]⟩,
      fun _ => ⟨[2, 2], [1, 2, 3, 4]⟩⟩
    [[3]] 1 0 0 "w_p" (by decide) (by decide)

/-! Binning engine (`np.histogram` over the log primary property and
the construction of the `gal_type` bin table).  All primary-property
values are carried in base-10 log space; the code's `10**x` is the
abstract parameter `exp10`. -/

/-- Source `np.tile(l, k)`: `l` concatenated `k` times. -/
def tile {α : Type} (l : List α) : ℕ → List α
  | 0 => []
  | k + 1 => l ++ tile l k

/-- Source `np.repeat(l, k)`: every element repeated `k` times in place. -/
def nprepeat {α : Type} (l : List α) (k : ℕ) : List α :=
  l.flatMap (fun x => List.replicate k x)

/-- Source `np.linspace a b k`: `k+1` equally spaced edges from `a` to `b`. -/
def linspace (a b : ℚ) (k : ℕ) : List ℚ :=
  (List.range (k + 1)).map (fun (i : ℕ) => a + (b - a) * (i : ℚ) / (k : ℚ))

/-- Source `np.min` over a non-empty list (`0` as an unused placeholder). -/
def npMin : List ℚ → ℚ
  | [] => 0
  | x :: t => t.foldl min x

/-- Source `np.max` over a non-empty list. -/
def npMax : List ℚ → ℚ
  | [] => 1
  | x :: t => t.foldl max x

/-- The bin edges `np.histogram(xs, bins=k)` uses: equally spaced over
`[min xs, max xs]`, falling back to `[0, 1]` for empty data and
widening by `0.5` on both sides when all values coincide. -/
def histEdges (xs : List ℚ) (k : ℕ) : List ℚ :=
  match xs with
  | [] => linspace 0 1 k
  | x :: t =>
      let a := npMin (x :: t)
      let b := npMax (x :: t)
      if a = b then linspace (a - 1/2) (b + 1/2) k else linspace a b k

/-- The bin `np.histogram` counts `v` in, given `edges`: half-open
intervals `[e_i, e_{i+1})` except the last, which is closed. -/
def histBinIndex (edges : List ℚ) (v : ℚ) : Option ℕ :=
  (List.range (edges.length - 1)).find? (fun i =>
    decide (edges.getD i 0 ≤ v) &&
    (decide (v < edges.getD (i + 1) 0) ||
     (i + 2 == edges.length && decide (v ≤ edges.getD (i + 1) 0))))

/-- The counts of `np.histogram(xs, bins=edges)`. -/
def histCounts (xs : List ℚ) (edges : List ℚ) : List ℕ :=
  (List.range (edges.length - 1)).map (fun i =>
    xs.countP (fun v => histBinIndex edges v == some i))

/-- The bin table `tabulate` builds, column-wise.  When the secondary
split is disabled the source table has no `sec` column; it is modelled
as all zeros. -/
structure GalTypeTable where
  n_h : List ℚ
  sec : List ℚ
  gal_type : List String
  log_prim_haloprop_min : List ℚ
  log_prim_haloprop_max : List ℚ
  prim_haloprop : List ℚ
deriving DecidableEq, Repr

/-- Source `log_prim_haloprop_bins`: the edges of the primary histogram. -/
def tabEdges (lp : List ℚ) (bins : ℕ) : List ℚ := histEdges lp bins

/-- Source `n_h`: the host-halo counts per primary bin. -/
def tabNH (lp : List ℚ) (bins : ℕ) : List ℕ := histCounts lp (tabEdges lp bins)

/-- Source `n_h_0`: counts of the halos whose conditional percentile is below
the split (`pct` is position-aligned with `lp`). -/
def tabNH0 (lp pct : List ℚ) (split : ℚ) (bins : ℕ) : List ℕ :=
  histCounts (((lp.zip pct).filter (fun p => decide (p.2 < split))).map
    Prod.fst) (tabEdges lp bins)

/-- Source `n_h_1`: counts of the halos whose conditional percentile is at or
above the split. -/
def tabNH1 (lp pct : List ℚ) (split : ℚ) (bins : ℕ) : List ℕ :=
  histCounts (((lp.zip pct).filter (fun p => decide (split ≤ p.2))).map
    Prod.fst) (tabEdges lp bins)

/-- The counts that get tiled into the `n_h` column:
`np.concatenate((n_h_0, n_h_1))` under the secondary split, plain `n_h`
otherwise. -/
def tabNHBase (lp pct : List ℚ) (secFlag : Bool) (split : ℚ) (bins : ℕ) :
    List ℕ :=
  if secFlag then tabNH0 lp pct split bins ++ tabNH1 lp pct split bins
  else tabNH lp bins

/-- Source `halotab.gal_type['n_h'] = np.tile(…, 2) / np.prod(halocat.Lbox)`. -/
def nhColumn (lp pct : List ℚ) (secFlag : Bool) (split : ℚ) (bins : ℕ)
    (vol : ℚ) : List ℚ :=
  (tile (tabNHBase lp pct secFlag split bins) 2).map
    (fun (c : ℕ) => (c : ℚ) / vol)

/-- Source `len(halotab.gal_type)` once the `n_h` column is assigned. -/
def tableLen (lp pct : List ℚ) (secFlag : Bool) (split : ℚ) (bins : ℕ) : ℕ :=
  (nhColumn lp pct secFlag split bins 1).length

/-- Source `halotab.gal_type['sec'] = np.tile(np.repeat([0, 1], len(n_h)), 2)`;
the column is absent without the split, modelled as zeros. -/
def secColumn (lp pct : List ℚ) (secFlag : Bool) (split : ℚ) (bins : ℕ) :
    List ℚ :=
  if secFlag then tile (nprepeat [0, 1] (tabNH lp bins).length) 2
  else List.replicate (tableLen lp pct secFlag split bins) 0

/-- Source `halotab.gal_type['gal_type']`: `'centrals'` repeated over the
first half of the rows, `'satellites'` over the second half. -/
def galTypeColumn (lp pct : List ℚ) (secFlag : Bool) (split : ℚ) (bins : ℕ) :
    List String :=
  List.replicate (tableLen lp pct secFlag split bins / 2) "centrals" ++
  List.replicate (tableLen lp pct secFlag split bins / 2) "satellites"

/-- Source `halotab.gal_type['log_prim_haloprop_min'] =
np.tile(log_prim_haloprop_bins[:-1], len // len(bins[:-1]))`. -/
def minColumn (lp pct : List ℚ) (secFlag : Bool) (split : ℚ) (bins : ℕ) :
    List ℚ :=
  tile (tabEdges lp bins).dropLast
    (tableLen lp pct secFlag split bins / (tabEdges lp bins).dropLast.length)

/-- Source `halotab.gal_type['log_prim_haloprop_max'] =
np.tile(log_prim_haloprop_bins[1:], len // len(bins[1:]))`. -/
def maxColumn (lp pct : List ℚ) (secFlag : Bool) (split : ℚ) (bins : ℕ) :
    List ℚ :=
  tile (tabEdges lp bins).tail
    (tableLen lp pct secFlag split bins / (tabEdges lp bins).tail.length)

/-- Source `halotab.gal_type['prim_haloprop'] = 10**(0.5 * (min + max))`. -/
def primColumn (exp10 : ℚ → ℚ) (lp pct : List ℚ) (secFlag : Bool)
    (split : ℚ) (bins : ℕ) : List ℚ :=
  List.zipWith (fun a b => exp10 (1/2 * (a + b)))
    (minColumn lp pct secFlag split bins) (maxColumn lp pct secFlag split bins)

/-- The construction of `halotab.gal_type` from the qualifying halos'
log primary properties `lp` and their conditional secondary
percentiles `pct` (computed by the external percentile routine,
position-aligned with `lp`). -/
def buildGalType (exp10 : ℚ → ℚ) (lp pct : List ℚ) (secFlag : Bool)
    (split : ℚ) (bins : ℕ) (vol : ℚ) : GalTypeTable :=
  ⟨nhColumn lp pct secFlag split bins vol,
   secColumn lp pct secFlag split bins,
   galTypeColumn lp pct secFlag split bins,
   minColumn lp pct secFlag split bins,
   maxColumn lp pct secFlag split bins,
   primColumn exp10 lp pct secFlag split bins⟩

lemma linspace_length (a b : ℚ) (k : ℕ) : (linspace a b k).length = k + 1 := by
  unfold linspace
  rw [List.length_map, List.length_range]

lemma histEdges_length (xs : List ℚ) (k : ℕ) :
    (histEdges xs k).length = k + 1 := by
  unfold histEdges
  cases xs with
  | nil => exact linspace_length 0 1 k
  | cons x t =>
      dsimp only
      split <;> exact linspace_length _ _ k

lemma histCounts_length (xs edges : List ℚ) :
    (histCounts xs edges).length = edges.length - 1 := by
  simp [histCounts]

lemma tile_length {α : Type} (l : List α) (k : ℕ) :
    (tile l k).length = k * l.length := by
  induction k with
  | zero => simp [tile]
  | succ k ih => simp [tile, ih, Nat.succ_mul, Nat.add_comm]

lemma tile_getElem? {α : Type} (l : List α) :
    ∀ (k j : ℕ), j < k * l.length → (tile l k)[j]? = l[j % l.length]? := by
  intro k
  induction k with
  | zero => intro j h; omega
  | succ k ih =>
      intro j h
      by_cases hj : j < l.length
      · rw [tile, List.getElem?_append, if_pos hj, Nat.mod_eq_of_lt hj]
      · have hle : l.length ≤ j := Nat.le_of_not_lt hj
        rw [Nat.succ_mul] at h
        rw [tile, List.getElem?_append, if_neg hj,
          ih (j - l.length) (by omega), Nat.mod_eq_sub_mod hle]

lemma getD_replicate' {α : Type} (a d : α) (n i : ℕ) (h : i < n) :
    (List.replicate n a).getD i d = a := by
  simp [List.getD_eq_getElem?_getD, List.getElem?_replicate, h]

lemma tabNH_length (lp : List ℚ) (bins : ℕ) : (tabNH lp bins).length = bins := by
  unfold tabNH tabEdges
  rw [histCounts_length, histEdges_length]
  omega

lemma tabNHBase_length (lp pct : List ℚ) (secFlag : Bool) (split : ℚ)
    (bins : ℕ) :
    (tabNHBase lp pct secFlag split bins).length
      = if secFlag then 2 * bins else bins := by
  unfold tabNHBase
  cases secFlag with
  | false => exact tabNH_length lp bins
  | true =>
      rw [if_pos rfl, if_pos rfl, List.length_append]
      unfold tabNH0 tabNH1 tabEdges
      rw [histCounts_length, histCounts_length, histEdges_length]
      omega

lemma nhColumn_length (lp pct : List ℚ) (secFlag : Bool) (split : ℚ)
    (bins : ℕ) (vol : ℚ) :
    (nhColumn lp pct secFlag split bins vol).length
      = 2 * (tabNHBase lp pct secFlag split bins).length := by
  simp [nhColumn, tile_length]

lemma tableLen_eq (lp pct : List ℚ) (secFlag : Bool) (split : ℚ) (bins : ℕ) :
    tableLen lp pct secFlag split bins
      = 2 * (tabNHBase lp pct secFlag split bins).length := by
  unfold tableLen
  exact nhColumn_length lp pct secFlag split bins 1

lemma tile_getElem?_second_half {α : Type} (e : List α) (k B i : ℕ)
    (hmul : B % e.length = 0) (hbound : B + i < k * e.length) :
    (tile e k)[B + i]? = (tile e k)[i]? := by
  rw [tile_getElem? e k _ hbound, tile_getElem? e k i (by omega)]
  have hmod : (B + i) % e.length = i % e.length := by
    rw [Nat.add_mod, hmul, Nat.zero_add, Nat.mod_mod_of_dvd _ dvd_rfl]
  rw [hmod]

lemma nprepeat_pair_length (a b : ℚ) (k : ℕ) :
    (nprepeat [a, b] k).length = 2 * k := by
  simp [nprepeat]
  omega

/-- C8: the bin table has `2 × bins × (2 if split else 1)` rows, the
first half tagged `'centrals'` and the second half `'satellites'`, and
each satellite row carries exactly the `n_h`, log edges and `sec` value
of the corresponding central row. -/
theorem bin_table_layout (exp10 : ℚ → ℚ) (lp pct : List ℚ) (secFlag : Bool)
    (split : ℚ) (bins : ℕ) (vol : ℚ) (i : ℕ) (hb : 0 < bins)
    (hi : i < bins * (if secFlag then 2 else 1)) :
    (buildGalType exp10 lp pct secFlag split bins vol).n_h.length
        = 2 * (bins * (if secFlag then 2 else 1))
    ∧ (buildGalType exp10 lp pct secFlag split bins vol).gal_type.length
        = 2 * (bins * (if secFlag then 2 else 1))
    ∧ (buildGalType exp10 lp pct secFlag split bins vol).gal_type.getD i ""
        = "centrals"
    ∧ (buildGalType exp10 lp pct secFlag split bins vol).gal_type.getD
        (bins * (if secFlag then 2 else 1) + i) "" = "satellites"
    ∧ (buildGalType exp10 lp pct secFlag split bins vol).n_h.getD
        (bins * (if secFlag then 2 else 1) + i) 0
      = (buildGalType exp10 lp pct secFlag split bins vol).n_h.getD i 0
    ∧ (buildGalType exp10 lp pct secFlag split bins vol
        ).log_prim_haloprop_min.getD
        (bins * (if secFlag then 2 else 1) + i) 0
      = (buildGalType exp10 lp pct secFlag split bins vol
        ).log_prim_haloprop_min.getD i 0
    ∧ (buildGalType exp10 lp pct secFlag split bins vol
        ).log_prim_haloprop_max.getD
        (bins * (if secFlag then 2 else 1) + i) 0
      = (buildGalType exp10 lp pct secFlag split bins vol
        ).log_prim_haloprop_max.getD i 0
    ∧ (buildGalType exp10 lp pct secFlag split bins vol).sec.getD
        (bins * (if secFlag then 2 else 1) + i) 0
      = (buildGalType exp10 lp pct secFlag split bins vol).sec.getD i 0 := by
  set m := (if secFlag then 2 else 1 : ℕ) with hm
  have hB : (tabNHBase lp pct secFlag split bins).length = bins * m := by
    rw [tabNHBase_length, hm]
    cases secFlag <;> simp [Nat.mul_comm]
  have htab : tableLen lp pct secFlag split bins = 2 * (bins * m) := by
    rw [tableLen_eq, hB]
  have hhalf : tableLen lp pct secFlag split bins / 2 = bins * m := by
    rw [htab]
    exact Nat.mul_div_cancel_left _ (by norm_num)
  have hdrop : (tabEdges lp bins).dropLast.length = bins := by
    unfold tabEdges
    rw [List.length_dropLast, histEdges_length]
    omega
  have htail : (tabEdges lp bins).tail.length = bins := by
    unfold tabEdges
    rw [List.length_tail, histEdges_length]
    omega
  have hk : tableLen lp pct secFlag split bins
      / (tabEdges lp bins).dropLast.length = 2 * m := by
    rw [htab, hdrop, show 2 * (bins * m) = 2 * m * bins by ring]
    exact Nat.mul_div_cancel _ hb
  have hk' : tableLen lp pct secFlag split bins
      / (tabEdges lp bins).tail.length = 2 * m := by
    rw [htab, htail, show 2 * (bins * m) = 2 * m * bins by ring]
    exact Nat.mul_div_cancel _ hb
  refine ⟨?_, ?_, ?_, ?_, ?_, ?_, ?_, ?_⟩
  · show (nhColumn lp pct secFlag split bins vol).length = _
    rw [nhColumn_length, hB]
  · show (galTypeColumn lp pct secFlag split bins).length = _
    unfold galTypeColumn
    rw [List.length_append, List.length_replicate, List.length_replicate,
      hhalf]
    omega
  · show (galTypeColumn lp pct secFlag split bins).getD i "" = "centrals"
    have hi' : i < tableLen lp pct secFlag split bins / 2 := by
      rw [hhalf]; exact hi
    unfold galTypeColumn
    rw [List.getD_append _ _ _ _ (by rw [List.length_replicate]; exact hi')]
    exact getD_replicate' _ _ _ _ hi'
  · show (galTypeColumn lp pct secFlag split bins).getD _ "" = "satellites"
    have hi' : i < tableLen lp pct secFlag split bins / 2 := by
      rw [hhalf]; exact hi
    unfold galTypeColumn
    rw [List.getD_append_right _ _ _ _
      (by rw [List.length_replicate, hhalf]; omega)]
    rw [List.length_replicate, hhalf, Nat.add_sub_cancel_left]
    exact getD_replicate' _ _ _ _ hi
  · show (nhColumn lp pct secFlag split bins vol).getD _ 0
      = (nhColumn lp pct secFlag split bins vol).getD i 0
    rw [List.getD_eq_getElem?_getD, List.getD_eq_getElem?_getD]
    unfold nhColumn
    rw [List.getElem?_map, List.getElem?_map]
    rw [tile_getElem?_second_half _ 2 _ i
      (by rw [hB]; exact Nat.mod_self _) (by rw [hB]; omega)]
  · show (minColumn lp pct secFlag split bins).getD _ 0
      = (minColumn lp pct secFlag split bins).getD i 0
    have hmul : (bins * m) % (tabEdges lp bins).dropLast.length = 0 := by
      rw [hdrop]
      exact Nat.mul_mod_right bins m
    have hbound : bins * m + i
        < (tableLen lp pct secFlag split bins
            / (tabEdges lp bins).dropLast.length)
          * (tabEdges lp bins).dropLast.length := by
      rw [hk, hdrop]
      have h2 : 2 * m * bins = 2 * (bins * m) := by ring
      omega
    rw [List.getD_eq_getElem?_getD, List.getD_eq_getElem?_getD]
    unfold minColumn
    rw [tile_getElem?_second_half _ _ _ i hmul hbound]
  · show (maxColumn lp pct secFlag split bins).getD _ 0
      = (maxColumn lp pct secFlag split bins).getD i 0
    have hmul : (bins * m) % (tabEdges lp bins).tail.length = 0 := by
      rw [htail]
      exact Nat.mul_mod_right bins m
    have hbound : bins * m + i
        < (tableLen lp pct secFlag split bins
            / (tabEdges lp bins).tail.length)
          * (tabEdges lp bins).tail.length := by
      rw [hk', htail]
      have h2 : 2 * m * bins = 2 * (bins * m) := by ring
      omega
    rw [List.getD_eq_getElem?_getD, List.getD_eq_getElem?_getD]
    unfold maxColumn
    rw [tile_getElem?_second_half _ _ _ i hmul hbound]
  · show (secColumn lp pct secFlag split bins).getD _ 0
      = (secColumn lp pct secFlag split bins).getD i 0
    unfold secColumn
    cases secFlag with
    | false =>
        have hm1 : m = 1 := by simp [hm]
        rw [if_neg (by simp)]
        rw [getD_replicate' _ _ _ _ (by rw [htab]; omega),
          getD_replicate' _ _ _ _ (by rw [htab]; omega)]
    | true =>
        have hm2 : m = 2 := by simp [hm]
        have hlen : (nprepeat ([0, 1] : List ℚ) (tabNH lp bins).length).length
            = bins * m := by
          rw [nprepeat_pair_length, tabNH_length, hm2, Nat.mul_comm]
        rw [if_pos rfl]
        rw [List.getD_eq_getElem?_getD, List.getD_eq_getElem?_getD]
        rw [tile_getElem?_second_half _ 2 _ i
          (by rw [hlen]; exact Nat.mod_self _) (by rw [hlen]; omega)]

/-- Closed instance of `bin_table_layout` at two bins over halo data
`[0, 1]`, no secondary split. -/
theorem bin_table_layout_witness :
    (buildGalType id [0, 1] [0, 0] false (1/2) 2 1).n_h.length
        = 2 * (2 * (if false then 2 else 1))
    ∧ (buildGalType id [0, 1] [0, 0] false (1/2) 2 1).gal_type.length
        = 2 * (2 * (if false then 2 else 1))
    ∧ (buildGalType id [0, 1] [0, 0] false (1/2) 2 1).gal_type.getD 0 ""
        = "centrals"
    ∧ (buildGalType id [0, 1] [0, 0] false (1/2) 2 1).gal_type.getD
        (2 * (if false then 2 else 1) + 0) "" = "satellites"
    ∧ (buildGalType id [0, 1] [0, 0] false (1/2) 2 1).n_h.getD
        (2 * (if false then 2 else 1) + 0) 0
      = (buildGalType id [0, 1] [0, 0] false (1/2) 2 1).n_h.getD 0 0
    ∧ (buildGalType id [0, 1] [0, 0] false (1/2) 2 1
        ).log_prim_haloprop_min.getD (2 * (if false then 2 else 1) + 0) 0
      = (buildGalType id [0, 1] [0, 0] false (1/2) 2 1
        ).log_prim_haloprop_min.getD 0 0
    ∧ (buildGalType id [0, 1] [0, 0] false (1/2) 2 1
        ).log_prim_haloprop_max.getD (2 * (if false then 2 else 1) + 0) 0
      = (buildGalType id [0, 1] [0, 0] false (1/2) 2 1
        ).log_prim_haloprop_max.getD 0 0
    ∧ (buildGalType id [0, 1] [0, 0] false (1/2) 2 1).sec.getD
        (2 * (if false then 2 else 1) + 0) 0
      = (buildGalType id [0, 1] [0, 0] false (1/2) 2 1).sec.getD 0 0 :=
  bin_table_layout id [0, 1] [0, 0] false (1/2) 2 1 0 (by decide) (by decide)

/-- A mock galaxy, as the assignment mask reads it: the base-10 log of
its halo's primary property, its `gal_type` tag and its inherited
secondary percentile. -/
structure Galaxy where
  logprim : ℚ
  gal_type : String
  pct : ℚ

/-- The per-bin galaxy selection mask.  The source compares
`10**log_min < prim` and `10**log_max >= prim` on linear values; since
`10**x` is strictly increasing this is `log_min < log10 prim` and
`log10 prim <= log_max`, the form used here. -/
def galaxyInBin (t : GalTypeTable) (secFlag : Bool) (split : ℚ) (i : ℕ)
    (g : Galaxy) : Prop :=
  t.log_prim_haloprop_min.getD i 0 < g.logprim
  ∧ g.logprim ≤ t.log_prim_haloprop_max.getD i 0
  ∧ t.gal_type.getD i "" = g.gal_type
  ∧ (secFlag = true →
      (if t.sec.getD i 0 = 0 then g.pct < split else split ≤ g.pct))

lemma tabEdges_length (lp : List ℚ) (bins : ℕ) :
    (tabEdges lp bins).length = bins + 1 := by
  unfold tabEdges
  exact histEdges_length lp bins

lemma minColumn_getElem? (lp pct : List ℚ) (secFlag : Bool) (split : ℚ)
    (bins : ℕ) (hb : 0 < bins) (i : ℕ)
    (hi : i < tableLen lp pct secFlag split bins) :
    (minColumn lp pct secFlag split bins)[i]? = (tabEdges lp bins)[i % bins]? := by
  have hdrop : (tabEdges lp bins).dropLast.length = bins := by
    rw [List.length_dropLast, tabEdges_length]
    omega
  have hk : tableLen lp pct secFlag split bins
        / (tabEdges lp bins).dropLast.length
        * (tabEdges lp bins).dropLast.length
      = tableLen lp pct secFlag split bins := by
    rw [hdrop, tableLen_eq, tabNHBase_length]
    cases secFlag with
    | false =>
        rw [if_neg (by simp)]
        exact Nat.div_mul_cancel ⟨2, by ring⟩
    | true =>
        rw [if_pos rfl]
        exact Nat.div_mul_cancel ⟨4, by ring⟩
  unfold minColumn
  rw [tile_getElem? _ _ i (by rw [hk]; exact hi), hdrop,
    List.getElem?_dropLast,
    if_pos (by rw [tabEdges_length]; exact lt_of_lt_of_le (Nat.mod_lt i hb) (by omega))]

/-- C10: a galaxy whose log primary property equals the lower edge of
the lowest bin (a strict lower bound of all edges) is selected by no
bin's mask, while the halo histogram that defines `n_h` counts a halo
with that exact value in the first bin. -/
theorem galaxy_lower_edge_excluded (exp10 : ℚ → ℚ) (lp pct : List ℚ)
    (secFlag : Bool) (split : ℚ) (bins : ℕ) (vol : ℚ) (g : Galaxy)
    (hb : 0 < bins)
    (hg : g.logprim = (tabEdges lp bins).getD 0 0)
    (hmem : g.logprim ∈ lp)
    (hlow : ∀ j, j < (tabEdges lp bins).length →
      g.logprim ≤ (tabEdges lp bins).getD j 0)
    (hlt : g.logprim < (tabEdges lp bins).getD 1 0) :
    (∀ i, i < tableLen lp pct secFlag split bins →
      ¬ galaxyInBin (buildGalType exp10 lp pct secFlag split bins vol)
          secFlag split i g)
    ∧ histBinIndex (tabEdges lp bins) g.logprim = some 0
    ∧ 0 < (tabNH lp bins).getD 0 0 := by
  have hidx : histBinIndex (tabEdges lp bins) g.logprim = some 0 := by
    unfold histBinIndex
    rw [tabEdges_length]
    obtain ⟨b', rfl⟩ : ∃ b', bins = b' + 1 := ⟨bins - 1, by omega⟩
    rw [show b' + 1 + 1 - 1 = b' + 1 by omega, List.range_succ_eq_map,
      List.find?_cons_of_pos]
    simp only [Nat.zero_add, Bool.and_eq_true, Bool.or_eq_true,
      decide_eq_true_eq]
    exact ⟨le_of_eq hg.symm, Or.inl hlt⟩
  refine ⟨?_, hidx, ?_⟩
  · intro i hi hbin
    obtain ⟨h1, -, -, -⟩ := hbin
    have hmin : (buildGalType exp10 lp pct secFlag split bins vol
        ).log_prim_haloprop_min.getD i 0 = (tabEdges lp bins).getD (i % bins) 0 := by
      show (minColumn lp pct secFlag split bins).getD i 0 = _
      rw [List.getD_eq_getElem?_getD, minColumn_getElem? lp pct secFlag split bins hb i hi,
        List.getD_eq_getElem?_getD]
    rw [hmin] at h1
    have hle := hlow (i % bins)
      (by rw [tabEdges_length]; exact lt_of_lt_of_le (Nat.mod_lt i hb) (by omega))
    exact absurd h1 (not_lt.mpr hle)
  · unfold tabNH histCounts
    rw [List.getD_eq_getElem?_getD, List.getElem?_map, tabEdges_length,
      Nat.add_sub_cancel, List.getElem?_range hb]
    simp only [Option.map_some', Option.getD_some]
    rw [List.countP_pos_iff]
    exact ⟨g.logprim, hmem,
      show (histBinIndex (tabEdges lp bins) g.logprim == some 0) = true by
        rw [hidx]; rfl⟩

/-- Closed instance of `galaxy_lower_edge_excluded`: halo data `[0, 2]`
in log space, two bins, a galaxy exactly at the lower edge `0`. -/
theorem galaxy_lower_edge_excluded_witness :
    (∀ i, i < tableLen [0, 2] [0, 0] false (1/2) 2 →
      ¬ galaxyInBin (buildGalType id [0, 2] [0, 0] false (1/2) 2 1)
          false (1/2) i ⟨0, "centrals", 0⟩)
    ∧ histBinIndex (tabEdges [0, 2] 2)
        (Galaxy.logprim ⟨0, "centrals", 0⟩) = some 0
    ∧ 0 < (tabNH [0, 2] 2).getD 0 0 :=
  galaxy_lower_edge_excluded id [0, 2] [0, 0] false (1/2) 2 1
    ⟨0, "centrals", 0⟩
    (by norm_num)
    (by norm_num [tabEdges, histEdges, npMin, npMax, linspace,
      List.range_succ, List.getD])
    (by norm_num)
    (by
      have he : tabEdges [0, 2] 2 = [0, 1, 2] := by
        norm_num [tabEdges, histEdges, npMin, npMax, linspace,
          List.range_succ]
      intro j hj
      rw [he] at hj ⊢
      simp only [List.length_cons, List.length_nil] at hj
      interval_cases j <;> norm_num [List.getD])
    (by norm_num [tabEdges, histEdges, npMin, npMax, linspace,
      List.range_succ, List.getD])

lemma mem_tile {α : Type} (l : List α) (k : ℕ) (a : α) :
    a ∈ tile l k → a ∈ l := by
  induction k with
  | zero => intro h; exact absurd h (List.not_mem_nil a)
  | succ k ih =>
      intro h
      rcases List.mem_append.mp h with h' | h'
      · exact h'
      · exact ih h'

lemma autoLoop_all_empty {P : Type} (f : TpcfFun P) (pos : List (List P))
    (n : ℕ) (hp : ∀ p ∈ pos, p = []) : (autoLoop f pos n).1 = none := by
  have hg : ∀ j, pos.getD j [] = [] := by
    intro j
    rw [List.getD_eq_getElem?_getD]
    rcases h : pos[j]? with _ | p
    · rfl
    · exact hp p (List.getElem?_mem h)
  unfold autoLoop
  exact foldl_induction_mem
    (fun (st : Option AutoMat × List (ℕ × ℕ)) => st.1 = none)
    (fun st i =>
      (List.range' i (n - i)).foldl (fun st k => autoStep f pos i k st) st)
    (List.range n) (none, []) rfl
    (fun st i _ h => foldl_induction_mem
      (fun (st : Option AutoMat × List (ℕ × ℕ)) => st.1 = none)
      (fun st k => autoStep f pos i k st)
      (List.range' i (n - i)) st h
      (fun st' k _ h' => by
        have hc : ¬ 0 < (pos.getD i []).length * (pos.getD k []).length := by
          rw [hg i, hg k]
          simp
        simp only [autoStep, if_neg hc]
        exact h'))

/-- C7 (amended): with zero qualifying halos the binning code raises no
error of its own, but the bin table it builds has
`2 × bins × (2 if split else 1)` rows, all with `n_h = 0` — not zero
rows; and since no bin pair is ever populated the tabulation loop never
creates `tpcf_matrix` (the variable stays unbound, so the final
`halotab.tpcf_matrix = tpcf_matrix` line fails), rather than degrading
to empty arrays. -/
theorem tabulate_zero_halos {P : Type} (exp10 : ℚ → ℚ) (pct : List ℚ)
    (secFlag : Bool) (split : ℚ) (bins : ℕ) (vol : ℚ) (f : TpcfFun P)
    (pos : List (List P)) (n : ℕ) (hp : ∀ p ∈ pos, p = []) :
    (buildGalType exp10 [] pct secFlag split bins vol).n_h.length
        = 2 * (bins * (if secFlag then 2 else 1))
    ∧ (∀ q ∈ (buildGalType exp10 [] pct secFlag split bins vol).n_h, q = 0)
    ∧ (autoLoop f pos n).1 = none := by
  refine ⟨?_, ?_, autoLoop_all_empty f pos n hp⟩
  · show (nhColumn [] pct secFlag split bins vol).length = _
    rw [nhColumn_length, tabNHBase_length]
    cases secFlag <;> simp [Nat.mul_comm]
  · intro q hq
    have hq' : q ∈ nhColumn [] pct secFlag split bins vol := hq
    unfold nhColumn at hq'
    rw [List.mem_map] at hq'
    obtain ⟨c, hc, rfl⟩ := hq'
    have hc' := mem_tile _ _ _ hc
    have hc0 : c = 0 := by
      unfold tabNHBase tabNH0 tabNH1 tabNH at hc'
      cases secFlag with
      | true =>
          rw [if_pos rfl] at hc'
          rcases List.mem_append.mp hc' with h' | h' <;>
            · unfold histCounts at h'
              rw [List.mem_map] at h'
              obtain ⟨i, -, rfl⟩ := h'
              simp
      | false =>
          rw [if_neg (by simp)] at hc'
          unfold histCounts at hc'
          rw [List.mem_map] at hc'
          obtain ⟨i, -, rfl⟩ := hc'
          simp
    rw [hc0]
    simp

/-- Closed instance of `tabulate_zero_halos` at two bins and two empty
position subsets. -/
theorem tabulate_zero_halos_witness :
    (buildGalType id [] [] false (1/2) 2 1).n_h.length
        = 2 * (2 * (if false then 2 else 1))
    ∧ (∀ q ∈ (buildGalType id [] [] false (1/2) 2 1).n_h, q = 0)
    ∧ (autoLoop (P := ℕ)
        ⟨"xj", fun _ _ _ _ => ⟨[1], [2]⟩, fun _ => ⟨[1], [2]⟩⟩
        [[], []] 2).1 = none :=
  tabulate_zero_halos id [] false (1/2) 2 1
    ⟨"xj", fun _ _ _ _ => ⟨[1], [2]⟩, fun _ => ⟨[1], [2]⟩⟩
    [[], []] 2 (by decide)

/-- C7, the claim as frozen, refuted at zero qualifying halos with
three requested bins: the bin table has `6` rows, not zero, and the
tabulation loop ends with no matrix at all (`none`, the unbound
`tpcf_matrix` variable) rather than empty arrays. -/
theorem tabulate_zero_halos_counterexample :
    (buildGalType id [] [] false (1/2) 3 1).n_h.length = 6
    ∧ (buildGalType id [] [] false (1/2) 3 1).n_h.length ≠ 0
    ∧ (autoLoop (P := ℕ) ⟨"xi", fun _ _ _ _ => ⟨[1], [5]⟩, fun _ => ⟨[1], [5]⟩⟩
        (List.replicate 6 []) 6).1 = none := by
  refine ⟨?_, ?_, ?_⟩
  · rw [show (buildGalType id [] [] false (1/2) 3 1).n_h
        = nhColumn [] [] false (1/2) 3 1 from rfl,
      nhColumn_length, tabNHBase_length]
    rfl
  · rw [show (buildGalType id [] [] false (1/2) 3 1).n_h
        = nhColumn [] [] false (1/2) 3 1 from rfl,
      nhColumn_length, tabNHBase_length]
    simp
  · rfl

/-! Galaxy-to-halo join (`crossmatch` from halotools and the assertion
that follows it in `tabulate`). -/

/-- Source `halotools.utils.crossmatch(x, y)`: the index pairs
`(idx_x, idx_y)` with `x[idx_x] == y[idx_y]`, one per element of `x`
that occurs in `y` (`y`'s values are unique); elements of `x` with no
match in `y` are simply skipped. -/
def crossmatch (x y : List ℤ) : List (ℕ × ℕ) :=
  (List.range x.length).filterMap (fun ix =>
    match y.findIdx? (fun b => b == x.getD ix 0) with
    | none => none
    | some iy => some (ix, iy))

/-- The check
`np.all(gals['halo_id'][idx_gals] == halos['halo_id'][idx_halos])`
asserted after the crossmatch. -/
def joinAssert (x y : List ℤ) : Bool :=
  (crossmatch x y).all (fun p => x.getD p.1 0 == y.getD p.2 0)

/-- The percentile assignment: start from zeros, then overwrite the
matched positions with the matched halos' percentiles. -/
def assignPercentiles (x y : List ℤ) (ypct : List ℚ) : List ℚ :=
  (List.range x.length).map (fun i =>
    match (crossmatch x y).find? (fun p => p.1 == i) with
    | some p => ypct.getD p.2 0
    | none => 0)

/-- The join stage of `tabulate`: run the assert, then assign the
percentiles. -/
def galaxyJoin (x y : List ℤ) (ypct : List ℚ) : Except String (List ℚ) :=
  if joinAssert x y then .ok (assignPercentiles x y ypct)
  else .error "AssertionError"

lemma crossmatch_matches (x y : List ℤ) (p : ℕ × ℕ)
    (hp : p ∈ crossmatch x y) : x.getD p.1 0 = y.getD p.2 0 := by
  unfold crossmatch at hp
  rw [List.mem_filterMap] at hp
  obtain ⟨ix, -, hsome⟩ := hp
  rcases hfind : y.findIdx? (fun b => b == x.getD ix 0) with _ | iy
  · rw [hfind] at hsome
    exact absurd hsome (by simp)
  · rw [hfind] at hsome
    obtain rfl : (ix, iy) = p := Option.some.inj hsome
    obtain ⟨hlt, hidx⟩ := List.findIdx?_eq_some_iff_findIdx_eq.mp hfind
    have hw : y.findIdx (fun b => b == x.getD ix 0) < y.length := by
      rw [hidx]
      exact hlt
    have h2 := @List.findIdx_getElem _ (fun b => b == x.getD ix 0) y hw
    have hpred : (y.getD iy 0 == x.getD ix 0) = true := by
      rw [List.getD_eq_getElem _ _ hlt]
      convert h2 using 3
      exact hidx.symm
    exact (beq_iff_eq.mp hpred).symm

/-- C6: the join-integrity assert after `crossmatch` is true for every
input by construction of `crossmatch` (it only returns matching index
pairs), so a galaxy whose halo id has no matching qualifying halo does
not fail the run: at galaxy ids `[1, 2]` against the single qualifying
halo id `[1]`, the join succeeds and silently leaves percentile `0` for
the unmatched galaxy `2`. -/
theorem crossmatch_assert_vacuous :
    (∀ x y : List ℤ, joinAssert x y = true)
    ∧ galaxyJoin [1, 2] [1] [7] = .ok [7, 0]
    ∧ (2 : ℤ) ∉ ([1] : List ℤ) := by
  refine ⟨?_, ?_, by decide⟩
  · intro x y
    unfold joinAssert
    rw [List.all_eq_true]
    intro p hp
    have h := crossmatch_matches x y p hp
    exact beq_iff_eq.mpr h
  · rfl

/-! Persistence (`TabCorr.write` / `TabCorr.read` over an HDF5 file).
A file is modelled by its sections; groups are key–value lists.  h5py
iterates group keys in ascending alphanumeric order, modelled by an
insertion sort under `keyLe`. -/

/-- The scalar attributes `write` stores and `read` restores. -/
structure TabAttrs where
  tpcf : String
  mode : String
  simname : String
  redshift : ℚ
  Num_ptcl_requirement : ℕ
  prim_haloprop_key : String
  sec_haloprop : Bool
  sec_haloprop_key : String
  sec_haloprop_split : ℚ
deriving DecidableEq, Repr

/-- The persistent state of a `TabCorr` object.  `tpcf_kwargs` is a
python dict: unique keys, insertion-ordered. -/
structure TabCorrData where
  attrs : TabAttrs
  tpcf_matrix : NDArray
  tpcf_args : List NDArray
  tpcf_kwargs : List (String × NDArray)
  tpcf_shape : List ℕ
  gal_type : GalTypeTable
deriving DecidableEq, Repr

/-- The written HDF5 file.  A group that was never written to does not
exist (`none`): with zero positional or keyword arguments the loops in
`write` create nothing. -/
structure H5File where
  attrs : TabAttrs
  tpcf_matrix : NDArray
  tpcf_args : Option (List (String × NDArray))
  tpcf_kwargs : Option (List (String × NDArray))
  tpcf_shape : List ℕ
  gal_type : GalTypeTable
deriving DecidableEq, Repr

/-- Source `'arg_%d' % i`. -/
def argKey (i : ℕ) : String := "arg_" ++ toString i

/-- The dataset names `arg_0, …, arg_(n-1)`. -/
def argKeys (n : ℕ) : List String := (List.range n).map argKey

/-- The `tpcf_args` group `write` produces:
`fstream['tpcf_args/arg_%d' % i] = arg` for each enumerated argument. -/
def writeArgsGroup (args : List NDArray) : Option (List (String × NDArray)) :=
  if args = [] then none
  else some (args.enum.map (fun p => (argKey p.1, p.2)))

/-- The `tpcf_kwargs` group: one dataset per keyword argument. -/
def writeKwargsGroup (kwargs : List (String × NDArray)) :
    Option (List (String × NDArray)) :=
  if kwargs = [] then none else some kwargs

/-- The file `write` produces from an object. -/
def fileOfTabCorr (t : TabCorrData) : H5File :=
  ⟨t.attrs, t.tpcf_matrix, writeArgsGroup t.tpcf_args,
   writeKwargsGroup t.tpcf_kwargs, t.tpcf_shape, t.gal_type⟩

/-- Byte-wise lexicographic comparison, the order in which h5py
iterates group member names. -/
def charListLe : List Char → List Char → Bool
  | [], _ => true
  | _ :: _, [] => false
  | a :: as, b :: bs =>
      if a.toNat < b.toNat then true
      else if b.toNat < a.toNat then false
      else charListLe as bs

/-- Source `keyLe` on whole names. -/
def keyLe (a b : String) : Bool := charListLe a.data b.data

/-- Insertion into a `keyLe`-sorted list. -/
def insertKey (k : String) : List String → List String
  | [] => [k]
  | k' :: t => if keyLe k k' then k :: k' :: t else k' :: insertKey k t

/-- The ascending-name order in which `.keys()` yields group members. -/
def sortKeys : List String → List String
  | [] => []
  | k :: t => insertKey k (sortKeys t)

/-- Reading a group's datasets in `.keys()` order, values only
(`read`'s reconstruction of `tpcf_args`). -/
def groupValues (g : List (String × NDArray)) : List NDArray :=
  (sortKeys (g.map Prod.fst)).map (fun k => (g.lookup k).getD ⟨[], []⟩)

/-- Reading a group's datasets in `.keys()` order, as key–value pairs
(`read`'s reconstruction of `tpcf_kwargs`). -/
def groupPairs (g : List (String × NDArray)) : List (String × NDArray) :=
  (sortKeys (g.map Prod.fst)).map (fun k => (k, (g.lookup k).getD ⟨[], []⟩))

/-- Source `TabCorr.read`: fails (`KeyError`) when the `tpcf_args` group is
absent; tolerates an absent `tpcf_kwargs` group as an empty dict. -/
def tabCorrOfFile (f : H5File) : Except String TabCorrData :=
  match f.tpcf_args with
  | none => .error "KeyError: tpcf_args"
  | some g =>
      .ok ⟨f.attrs, f.tpcf_matrix, groupValues g,
        (match f.tpcf_kwargs with
         | none => []
         | some gk => groupPairs gk),
        f.tpcf_shape, f.gal_type⟩

/-- Source `TabCorr.write`: `h5py.File(fname, 'w-')` fails when the file
exists, before anything is written; otherwise the whole bundle is
stored under `fname`. -/
def h5write (fs : List (String × H5File)) (fname : String)
    (t : TabCorrData) : Except String Unit × List (String × H5File) :=
  if (fs.map Prod.fst).contains fname then (.error "FileExistsError", fs)
  else (.ok (), (fname, fileOfTabCorr t) :: fs)

/-- C5: writing to an existing file name fails and leaves the
filesystem exactly as it was — no part of the bundle is written. -/
theorem write_existing_file_fails (fs : List (String × H5File))
    (fname : String) (t : TabCorrData)
    (h : (fs.map Prod.fst).contains fname = true) :
    (h5write fs fname t).1 = .error "FileExistsError"
    ∧ (h5write fs fname t).2 = fs := by
  unfold h5write
  rw [if_pos h]
  exact ⟨rfl, rfl⟩

/-- Closed instance of `write_existing_file_fails` at a one-file
filesystem whose single file is the write target. -/
theorem write_existing_file_fails_witness :
    (h5write
      [("halotab.hdf5",
        ⟨⟨"wp", "auto", "sim", 0, 300, "halo_mvir", false, "halo_nfw_conc",
          0⟩, ⟨[], []⟩, none, none, [], ⟨[], [], [], [], [], []⟩⟩)]
      "halotab.hdf5"
      ⟨⟨"wp", "auto", "sim", 0, 300, "halo_mvir", false, "halo_nfw_conc",
        0⟩, ⟨[], []⟩, [⟨[], []⟩], [], [1], ⟨[], [], [], [], [], []⟩⟩).1
      = .error "FileExistsError"
    ∧ (h5write
      [("halotab.hdf5",
        ⟨⟨"wp", "auto", "sim", 0, 300, "halo_mvir", false, "halo_nfw_conc",
          0⟩, ⟨[], []⟩, none, none, [], ⟨[], [], [], [], [], []⟩⟩)]
      "halotab.hdf5"
      ⟨⟨"wp", "auto", "sim", 0, 300, "halo_mvir", false, "halo_nfw_conc",
        0⟩, ⟨[], []⟩, [⟨[], []⟩], [], [1], ⟨[], [], [], [], [], []⟩⟩).2
      = [("halotab.hdf5",
        ⟨⟨"wp", "auto", "sim", 0, 300, "halo_mvir", false, "halo_nfw_conc",
          0⟩, ⟨[], []⟩, none, none, [], ⟨[], [], [], [], [], []⟩⟩)] :=
  write_existing_file_fails _ _ _ (by decide)

lemma insertKey_perm (k : String) (l : List String) :
    List.Perm (insertKey k l) (k :: l) := by
  induction l with
  | nil => exact List.Perm.refl _
  | cons k' t ih =>
      rw [insertKey]
      split
      · exact List.Perm.refl _
      · exact (List.Perm.cons k' ih).trans (List.Perm.swap k k' t)

lemma sortKeys_perm (l : List String) : List.Perm (sortKeys l) l := by
  induction l with
  | nil => exact List.Perm.refl _
  | cons k t ih => exact (insertKey_perm k (sortKeys t)).trans (ih.cons k)

lemma insertKey_of_le (k : String) (l : List String)
    (h : ∀ k' ∈ l, keyLe k k' = true) : insertKey k l = k :: l := by
  cases l with
  | nil => rfl
  | cons k' t =>
      rw [insertKey, if_pos (h k' (List.mem_cons_self k' t))]

lemma sortKeys_of_sorted (l : List String)
    (h : List.Pairwise (fun a b => keyLe a b = true) l) : sortKeys l = l := by
  induction l with
  | nil => rfl
  | cons k t ih =>
      rw [List.pairwise_cons] at h
      rw [sortKeys, ih h.2, insertKey_of_le k t h.1]

lemma argKeys_take (n : ℕ) (h : n ≤ 10) :
    argKeys n = (argKeys 10).take n := by
  unfold argKeys
  rw [← List.map_take, List.take_range, Nat.min_eq_left h]

lemma argKeys_sorted (n : ℕ) (h : n ≤ 10) :
    List.Pairwise (fun a b => keyLe a b = true) (argKeys n) := by
  have h10 : List.Pairwise (fun a b => keyLe a b = true) (argKeys 10) := by
    decide
  rw [argKeys_take n h]
  exact h10.sublist (List.take_sublist n _)

lemma argKeys_nodup (n : ℕ) (h : n ≤ 10) : (argKeys n).Nodup := by
  have h10 : (argKeys 10).Nodup := by decide
  rw [argKeys_take n h]
  exact h10.sublist (List.take_sublist n _)

lemma lookup_not_mem (k : String) :
    ∀ (l : List (String × NDArray)), k ∉ l.map Prod.fst →
      l.lookup k = none := by
  intro l
  induction l with
  | nil => intro _; rfl
  | cons p t ih =>
      intro h
      obtain ⟨k', v⟩ := p
      rw [List.map_cons, List.mem_cons] at h
      push_neg at h
      simp [List.lookup, beq_false_of_ne h.1, ih h.2]

lemma lookup_mem_some (k : String) :
    ∀ (l : List (String × NDArray)), k ∈ l.map Prod.fst →
      ∃ v, l.lookup k = some v := by
  intro l
  induction l with
  | nil => intro h; exact absurd h (List.not_mem_nil k)
  | cons p t ih =>
      intro h
      obtain ⟨k', v⟩ := p
      rcases hkk : k == k' with _ | _
      · have hne : k ≠ k' := ne_of_beq_false hkk
        have ht : k ∈ t.map Prod.fst := by
          rw [List.map_cons, List.mem_cons] at h
          exact h.resolve_left hne
        obtain ⟨w, hw⟩ := ih ht
        exact ⟨w, by simp [List.lookup, hkk, hw]⟩
      · exact ⟨v, by simp [List.lookup, hkk]⟩

lemma lookup_map_keys (f : String → NDArray) (k : String) :
    ∀ ks : List String,
      ((ks.map (fun k' => (k', f k'))).lookup k)
        = if k ∈ ks then some (f k) else none := by
  intro ks
  induction ks with
  | nil => simp
  | cons k' t ih =>
      rw [List.map_cons]
      rcases hkk : k == k' with _ | _
      · have hne : k ≠ k' := ne_of_beq_false hkk
        simp [List.lookup, hkk, ih, List.mem_cons, hne]
      · have heq : k = k' := eq_of_beq hkk
        subst heq
        simp [List.lookup, hkk]

lemma map_lookup_zip (d : NDArray) :
    ∀ (ks : List String) (vals : List NDArray), ks.Nodup →
      ks.length = vals.length →
      ks.map (fun k => ((ks.zip vals).lookup k).getD d) = vals := by
  intro ks
  induction ks with
  | nil =>
      intro vals _ hlen
      cases vals with
      | nil => rfl
      | cons v vt => simp at hlen
  | cons k kt ih =>
      intro vals hnd hlen
      cases vals with
      | nil => simp at hlen
      | cons v vt =>
          rw [List.zip_cons_cons, List.map_cons]
          have hk : k ∉ kt := (List.nodup_cons.mp hnd).1
          have hnd' : kt.Nodup := (List.nodup_cons.mp hnd).2
          have hmap : kt.map
              (fun k' => ((((k, v) :: kt.zip vt)).lookup k').getD d)
              = kt.map (fun k' => ((kt.zip vt).lookup k').getD d) := by
            refine List.map_congr_left (fun k' hk' => ?_)
            have hne : (k' == k) = false :=
              beq_false_of_ne (fun h => hk (h ▸ hk'))
            simp [List.lookup, hne]
          rw [hmap, ih vt hnd' (by simpa using hlen)]
          simp [List.lookup]

lemma writeArgs_zip (args : List NDArray) :
    args.enum.map (fun p => (argKey p.1, p.2))
      = (argKeys args.length).zip args := by
  rw [List.enum_eq_zip_range]
  unfold argKeys
  rw [List.zip_map_left]
  rfl

lemma writeArgs_keys (args : List NDArray) :
    (args.enum.map (fun p => (argKey p.1, p.2))).map Prod.fst
      = argKeys args.length := by
  rw [writeArgs_zip]
  refine List.map_fst_zip _ _ ?_
  unfold argKeys
  simp

lemma groupValues_writeArgs (args : List NDArray)
    (h2 : args.length ≤ 10) :
    groupValues (args.enum.map (fun p => (argKey p.1, p.2))) = args := by
  unfold groupValues
  rw [writeArgs_keys, sortKeys_of_sorted _ (argKeys_sorted _ h2),
    writeArgs_zip,
    map_lookup_zip _ _ _ (argKeys_nodup _ h2) (by unfold argKeys; simp)]

lemma groupPairs_lookup (g : List (String × NDArray)) (k : String) :
    (groupPairs g).lookup k = g.lookup k := by
  unfold groupPairs
  rw [lookup_map_keys]
  by_cases hk : k ∈ sortKeys (g.map Prod.fst)
  · rw [if_pos hk]
    obtain ⟨v, hv⟩ := lookup_mem_some k g ((sortKeys_perm _).mem_iff.mp hk)
    rw [hv]
    rfl
  · rw [if_neg hk]
    exact (lookup_not_mem k g
      (fun h => hk ((sortKeys_perm _).mem_iff.mpr h))).symm

/-- C3 (amended): for an object with at least one and at most ten
positional arguments, writing to a fresh file and reading it back
reproduces the attributes, matrix, positional arguments (in order),
keyword arguments (as a mapping), result shape and bin table exactly. -/
theorem write_read_roundtrip (t : TabCorrData)
    (h1 : t.tpcf_args ≠ []) (h2 : t.tpcf_args.length ≤ 10) :
    ∃ u, tabCorrOfFile (fileOfTabCorr t) = .ok u
      ∧ u.attrs = t.attrs
      ∧ u.tpcf_matrix = t.tpcf_matrix
      ∧ u.tpcf_args = t.tpcf_args
      ∧ (∀ k, u.tpcf_kwargs.lookup k = t.tpcf_kwargs.lookup k)
      ∧ u.tpcf_shape = t.tpcf_shape
      ∧ u.gal_type = t.gal_type := by
  unfold fileOfTabCorr tabCorrOfFile writeArgsGroup writeKwargsGroup
  rw [if_neg h1]
  by_cases hkw : t.tpcf_kwargs = []
  · rw [if_pos hkw]
    refine ⟨_, rfl, rfl, rfl, groupValues_writeArgs t.tpcf_args h2, ?_,
      rfl, rfl⟩
    intro k
    rw [hkw]
  · rw [if_neg hkw]
    exact ⟨_, rfl, rfl, rfl, groupValues_writeArgs t.tpcf_args h2,
      fun k => groupPairs_lookup t.tpcf_kwargs k, rfl, rfl⟩

/-- Closed instance of `write_read_roundtrip` at one positional and
one keyword argument. -/
theorem write_read_roundtrip_witness :
    ∃ u, tabCorrOfFile (fileOfTabCorr
      ⟨⟨"wp", "auto", "sim", 0, 300, "mvir", false, "conc", 0⟩,
       ⟨[], []⟩, [⟨[1], []⟩], [("rp", ⟨[2], []⟩)], [3],
       ⟨[], [], [], [], [], []⟩⟩) = .ok u
      ∧ u.attrs = ⟨"wp", "auto", "sim", 0, 300, "mvir", false, "conc", 0⟩
      ∧ u.tpcf_matrix = ⟨[], []⟩
      ∧ u.tpcf_args = [⟨[1], []⟩]
      ∧ (∀ k, u.tpcf_kwargs.lookup k
          = ([("rp", ⟨[2], []⟩)] : List (String × NDArray)).lookup k)
      ∧ u.tpcf_shape = [3]
      ∧ u.gal_type = ⟨[], [], [], [], [], []⟩ :=
  write_read_roundtrip
    ⟨⟨"wp", "auto", "sim", 0, 300, "mvir", false, "conc", 0⟩,
     ⟨[], []⟩, [⟨[1], []⟩], [("rp", ⟨[2], []⟩)], [3],
     ⟨[], [], [], [], [], []⟩⟩
    (by decide) (by decide)

/-- C3, the claim as frozen, refuted at two explicit objects: with zero
positional arguments `read` fails with a `KeyError` (the `tpcf_args`
group was never created), and with eleven positional arguments `read`
returns them in the file's alphabetical key order
(`arg_0, arg_1, arg_10, arg_2, …`), not the original order. -/
theorem write_read_roundtrip_counterexample :
    tabCorrOfFile (fileOfTabCorr
      ⟨⟨"wp", "auto", "sim", 0, 300, "mvir", false, "conc", 0⟩,
       ⟨[], []⟩, [], [], [], ⟨[], [], [], [], [], []⟩⟩)
      = .error "KeyError: tpcf_args"
    ∧ (tabCorrOfFile (fileOfTabCorr
      ⟨⟨"wp", "auto", "sim", 0, 300, "mvir", false, "conc", 0⟩,
       ⟨[], []⟩,
       [⟨[0], []⟩, ⟨[1], []⟩, ⟨[2], []⟩, ⟨[3], []⟩, ⟨[4], []⟩, ⟨[5], []⟩,
        ⟨[6], []⟩, ⟨[7], []⟩, ⟨[8], []⟩, ⟨[9], []⟩, ⟨[10], []⟩],
       [], [], ⟨[], [], [], [], [], []⟩⟩)).map TabCorrData.tpcf_args
      ≠ .ok [⟨[0], []⟩, ⟨[1], []⟩, ⟨[2], []⟩, ⟨[3], []⟩, ⟨[4], []⟩,
        ⟨[5], []⟩, ⟨[6], []⟩, ⟨[7], []⟩, ⟨[8], []⟩, ⟨[9], []⟩,
        ⟨[10], []⟩] := by
  refine ⟨rfl, ?_⟩
  intro h
  have heval : (tabCorrOfFile (fileOfTabCorr
      ⟨⟨"wp", "auto", "sim", 0, 300, "mvir", false, "conc", 0⟩,
       ⟨[], []⟩,
       [⟨[0], []⟩, ⟨[1], []⟩, ⟨[2], []⟩, ⟨[3], []⟩, ⟨[4], []⟩, ⟨[5], []⟩,
        ⟨[6], []⟩, ⟨[7], []⟩, ⟨[8], []⟩, ⟨[9], []⟩, ⟨[10], []⟩],
       [], [], ⟨[], [], [], [], [], []⟩⟩)).map TabCorrData.tpcf_args
      = .ok [⟨[0], []⟩, ⟨[1], []⟩, ⟨[10], []⟩, ⟨[2], []⟩, ⟨[3], []⟩,
        ⟨[4], []⟩, ⟨[5], []⟩, ⟨[6], []⟩, ⟨[7], []⟩, ⟨[8], []⟩,
        ⟨[9], []⟩] := rfl
  rw [heval] at h
  exact absurd (Except.ok.inj h) (by decide)

end TabCorr

